import Mathlib

/-!
Verification of the oud note trainer's pitch pipeline: the note/MIDI domain
model (noteUtils), the autocorrelation pitch extractor, the stabilization and
emission engine, and the microphone lifecycle/recovery supervisor
(micPitchDetector.ts).  JavaScript numbers are modelled by exact rationals
(reals where a logarithm is involved); machine floating point rounding is not
modelled.  A JavaScript expression that would throw (indexing an array out of
bounds and destructuring the resulting undefined) is modelled by Option.none.
-/

namespace Oud

/- Rational arithmetic is irreducible by default, which blocks kernel
evaluation of concrete witnesses; restore semireducibility locally so that
decide can evaluate the model on concrete inputs. -/
attribute [local semireducible] Rat.add Rat.sub Rat.mul Rat.inv Rat.ofScientific

/-! ## Note domain model (noteUtils: NoteLetter, Accidental, Note) -/

inductive NoteLetter
  | C
  | D
  | E
  | F
  | G
  | A
  | B
deriving DecidableEq

inductive Accidental
  | natural
  | sharp
  | flat
deriving DecidableEq

structure Note where
  letter : NoteLetter
  accidental : Accidental
  octave : Int
deriving DecidableEq

/-- Semitones from C for each letter, the SEMITONES_FROM_C table. -/
def SEMITONES_FROM_C : NoteLetter → Int
  | .C => 0
  | .D => 2
  | .E => 4
  | .F => 5
  | .G => 7
  | .A => 9
  | .B => 11

/-- Accidental offset used by noteToMidi: sharp = +1, flat = -1, natural = 0. -/
def accidentalOffset : Accidental → Int
  | .sharp => 1
  | .flat => -1
  | .natural => 0

/-- noteToMidi: (octave + 1) * 12 + SEMITONES_FROM_C[letter] + accidentalOffset. -/
def noteToMidi (note : Note) : Int :=
  (note.octave + 1) * 12 + SEMITONES_FROM_C note.letter + accidentalOffset note.accidental

/-- The 12-entry semitonesMap of midiToNote (sharp-preferring spellings). -/
def semitonesMap : List (NoteLetter × Accidental) :=
  [(.C, .natural), (.C, .sharp), (.D, .natural), (.D, .sharp), (.E, .natural),
   (.F, .natural), (.F, .sharp), (.G, .natural), (.G, .sharp), (.A, .natural),
   (.A, .sharp), (.B, .natural)]

/-- midiToNote.  JavaScript computes octave = Math.floor(midi / 12) - 1 (floor
division, Int.fdiv) and semitone = midi % 12 with the JS remainder operator,
whose result has the sign of the dividend (Int.tmod).  For negative midi not
divisible by 12 the remainder is negative, semitonesMap[semitone] is undefined
and the destructuring on the next line throws; that crash is modelled as none
(a negative or too-large index makes the list lookup fail). -/
def midiToNote (midi : Int) : Option Note :=
  let octave := Int.fdiv midi 12 - 1
  let semitone := Int.tmod midi 12
  if semitone < 0 then none
  else (semitonesMap.get? semitone.toNat).map fun e => ⟨e.1, e.2, octave⟩

/-- Whenever midiToNote actually returns a note, noteToMidi inverts it. -/
lemma noteToMidi_of_midiToNote (m : Int) (n : Note) (h : midiToNote m = some n) :
    noteToMidi n = m := by
  unfold midiToNote at h
  by_cases hs : Int.tmod m 12 < 0
  · simp [hs] at h
  · push_neg at hs
    simp only [if_neg (not_lt.mpr hs)] at h
    have hub : Int.tmod m 12 < 12 := Int.tmod_lt_of_pos m (by norm_num)
    have hdv : Int.fdiv m 12 = m / 12 := Int.fdiv_eq_ediv m (by norm_num)
    have hdecomp : 12 * Int.tdiv m 12 + Int.tmod m 12 = m := Int.tdiv_add_tmod m 12
    have hkv : ((Int.tmod m 12).toNat : Int) = Int.tmod m 12 := Int.toNat_of_nonneg hs
    have hk : (Int.tmod m 12).toNat < 12 := by omega
    generalize hgen : (Int.tmod m 12).toNat = k at h hkv hk
    interval_cases k <;>
      simp only [semitonesMap, List.get?_cons_zero, List.get?_cons_succ,
        Option.map_some', Option.some.injEq] at h <;>
      subst h <;>
      simp only [noteToMidi, SEMITONES_FROM_C, accidentalOffset] <;>
      omega

/-- For every nonnegative m, midiToNote succeeds (the semitone index is in
bounds). -/
lemma midiToNote_isSome_of_nonneg (m : Int) (h : 0 ≤ m) : (midiToNote m).isSome := by
  unfold midiToNote
  have h0 : 0 ≤ Int.tmod m 12 := Int.tmod_nonneg 12 h
  have hub : Int.tmod m 12 < 12 := Int.tmod_lt_of_pos m (by norm_num)
  have hkv : ((Int.tmod m 12).toNat : Int) = Int.tmod m 12 := Int.toNat_of_nonneg h0
  have hk : (Int.tmod m 12).toNat < 12 := by omega
  simp only [if_neg (not_lt.mpr h0)]
  generalize (Int.tmod m 12).toNat = k at hk
  interval_cases k <;> rfl

/-! ## Pitch extractor (micPitchDetector.ts, getPitch) -/

/-- Mean of the squared samples.  getPitch computes rms = sqrt(sumSq / size)
and compares rms < 0.01; both sides being nonnegative, this is equivalent to
sumSq / size < 0.01 ^ 2, which keeps the model inside the rationals.  (For an
empty buffer JS produces NaN, fails the gate and later returns null from the
peak scan; the rational model returns none at the gate — the result agrees.) -/
def meanSquare (buffer : List ℚ) : ℚ :=
  ((buffer.map fun x => x * x).sum) / (buffer.length : ℚ)

/-- The lead-in trim: the buffer is cut at the first index whose absolute
value exceeds 0.02; when no sample exceeds it, start stays 0 and the whole
buffer is kept (the JS loop never assigns start). -/
def trimStart (buffer : List ℚ) : List ℚ :=
  match buffer.findIdx? fun x => decide ((1 : ℚ)/50 < |x|) with
  | some i => buffer.drop i
  | none => buffer

/-- Unnormalized autocorrelation at one lag: sum of trimmed[i] * trimmed[i+lag]
over 0 ≤ i < len - lag. -/
def autocorrAt (t : List ℚ) (lag : Nat) : ℚ :=
  ((List.range (t.length - lag)).map fun i => t.getD i 0 * t.getD (i + lag) 0).sum

/-- The autocorrelation curve for every lag from 0 to len - 1. -/
def autocorr (t : List ℚ) : List ℚ :=
  (List.range t.length).map (autocorrAt t)

/-- One iteration of the peak scan: the running pair (peakIndex, peak) is
replaced at index i when autocorr[i] > peak, autocorr[i] > autocorr[i-1] and
autocorr[i] > autocorr[i+1]. -/
def peakStep (ac : List ℚ) (p : Int × ℚ) (i : Nat) : Int × ℚ :=
  if p.2 < ac.getD i 0 ∧ ac.getD (i - 1) 0 < ac.getD i 0 ∧ ac.getD (i + 1) 0 < ac.getD i 0
  then ((i : Int), ac.getD i 0)
  else p

/-- The peak scan over interior lags 1 .. len - 2, starting from
(peakIndex, peak) = (-1, 0). -/
def peakScan (ac : List ℚ) : Int × ℚ :=
  (List.range' 1 (ac.length - 2)).foldl (peakStep ac) (-1, 0)

/-- getPitch: silence gate on RMS, lead-in trim, autocorrelation, best strict
local maximum, lag-to-frequency conversion, plausibility gate 50..2000 Hz. -/
def getPitch (buffer : List ℚ) (sampleRate : ℚ) : Option ℚ :=
  if meanSquare buffer < (1/100 : ℚ) ^ 2 then none
  else
    let ac := autocorr (trimStart buffer)
    let p := peakScan ac
    if p.1 ≤ 0 then none
    else
      let frequency := sampleRate / (p.1 : ℚ)
      if frequency < 50 ∨ 2000 < frequency then none
      else some frequency

/-- Index i is a strict local maximum of the autocorrelation curve (strictly
greater than both neighbours, away from the ends). -/
def isLocalMax (ac : List ℚ) (i : Nat) : Prop :=
  1 ≤ i ∧ i + 1 < ac.length ∧ ac.getD (i - 1) 0 < ac.getD i 0 ∧ ac.getD (i + 1) 0 < ac.getD i 0

/-- freqToMidi: Math.round(69 + 12 * Math.log2(freq / 440)); Math.round is
floor of x + 1/2, exactly Mathlib's round. -/
noncomputable def freqToMidi (freq : ℝ) : ℤ :=
  round ((69 : ℝ) + 12 * Real.logb 2 (freq / 440))

/-! ## Stabilization and emission engine (micPitchDetector.ts, tick body)

The per-frame stabilization step is the portion of tick after the recovery
checks (the re-arm timer block and the pitch/candidate block).  A frame
carries the wall-clock timestamp now = performance.now(), the frame RMS, and
the quantized pitch: in the live loop pitch is freqToMidi applied to
getPitch's frequency, or none when getPitch reports no signal. -/

structure Config where
  minStableMs : ℚ
  rearmMs : ℚ
  rearmRmsThresh : ℚ
deriving DecidableEq

/-- The option defaults of startListening: minStableMs 250, rearmMs 120,
rearmRmsThresh 0.012. -/
def defaultConfig : Config := ⟨250, 120, 12/1000⟩

structure DetState where
  lastEmittedMidi : Option Int
  candidateMidi : Option Int
  candidateStartTs : Option ℚ
  lowRmsSince : Option ℚ
deriving DecidableEq

/-- The detection state right after startListening resets it. -/
def freshDetState : DetState := ⟨none, none, none, none⟩

structure Frame where
  now : ℚ
  rms : ℚ
  pitch : Option Int
deriving DecidableEq

/-- The re-arm timer block: while rms < rearmRmsThresh, start the low-RMS
timer if unset, and once now - lowRmsSince ≥ rearmMs clear the last emitted
MIDI and the candidate tracking (lowRmsSince itself is left running); any
frame with rms ≥ rearmRmsThresh resets the timer to null. -/
def rearmStep (cfg : Config) (st : DetState) (fr : Frame) : DetState :=
  if fr.rms < cfg.rearmRmsThresh then
    match st.lowRmsSince with
    | none => { st with lowRmsSince := some fr.now }
    | some t0 =>
      if cfg.rearmMs ≤ fr.now - t0 then
        { st with lastEmittedMidi := none, candidateMidi := none, candidateStartTs := none }
      else st
  else { st with lowRmsSince := none }

/-- Whether this frame makes the re-arm timer expire (the clearing branch of
rearmStep fires). -/
def rearmFires (cfg : Config) (st : DetState) (fr : Frame) : Bool :=
  if fr.rms < cfg.rearmRmsThresh then
    match st.lowRmsSince with
    | none => false
    | some t0 => decide (cfg.rearmMs ≤ fr.now - t0)
  else false

/-- The pitch/candidate block: on a detected pitch, restart candidacy when the
MIDI differs from the current candidate; otherwise, once the candidate has
been held for minStableMs and differs from the last emitted MIDI, emit it
(the callback receives midiToNote of the emitted value).  On no signal the
candidate tracking is cleared.  The returned Option Int is the emitted MIDI. -/
def pitchStep (cfg : Config) (st : DetState) (fr : Frame) : DetState × Option Int :=
  match fr.pitch with
  | some midi =>
    if st.candidateMidi = none ∨ some midi ≠ st.candidateMidi then
      ({ st with candidateMidi := some midi, candidateStartTs := some fr.now }, none)
    else
      match st.candidateStartTs with
      | some ts =>
        if cfg.minStableMs ≤ fr.now - ts then
          if st.lastEmittedMidi ≠ some midi then
            ({ st with lastEmittedMidi := some midi }, some midi)
          else (st, none)
        else (st, none)
      | none => (st, none)
  | none => ({ st with candidateMidi := none, candidateStartTs := none }, none)

/-- One stabilization step of tick: the re-arm timer block followed by the
pitch/candidate block. -/
def tickStep (cfg : Config) (st : DetState) (fr : Frame) : DetState × Option Int :=
  pitchStep cfg (rearmStep cfg st fr) fr

/-- Run the stabilization step over a frame sequence, collecting the emitted
MIDI values in order. -/
def runFrames (cfg : Config) (st : DetState) : List Frame → DetState × List Int
  | [] => (st, [])
  | fr :: rest =>
    let s1 := tickStep cfg st fr
    let s2 := runFrames cfg s1.1 rest
    (s2.1, s1.2.toList ++ s2.2)

/-- No frame of the run makes the re-arm timer expire. -/
def noRearmRun (cfg : Config) : DetState → List Frame → Bool
  | _, [] => true
  | st, fr :: rest => !rearmFires cfg st fr && noRearmRun cfg (tickStep cfg st fr).1 rest

/-! ## Lifecycle and recovery supervisor (micPitchDetector.ts, module state)

The module-level resource state: callbackRef / statusCallbackRef, analyser
(audioContext is created once and never nulled), keepAliveGain, the media
stream with its single audio track, the isRecovering flag and the scheduled
animation frame.  The asynchronous getUserMedia inside restartMicrophone is
split into restartBegin (everything before the await: the callbackRef guard,
isRecovering := true, the recovering status report, stopping the old tracks)
and restartComplete (the code after the await, with the outcome of
getUserMedia as a Boolean); stopListening may run between the two. -/

inductive MicStatus
  | listening
  | recovering
  | error
deriving DecidableEq

inductive StreamState
  | noStream
  | live
  | ended
deriving DecidableEq

structure SupState where
  callbackSet : Bool
  statusCbSet : Bool
  analyserSet : Bool
  keepAliveSet : Bool
  stream : StreamState
  isRecovering : Bool
  rafScheduled : Bool
  lastAudioDetectedAt : ℚ
  lastStatus : Option MicStatus
deriving DecidableEq

/-- A healthy running session, as left by a successful startListening. -/
def runningSup : SupState :=
  ⟨true, true, true, true, .live, false, true, 0, some .listening⟩

/-- stopListening: cancel the frame loop, stop and drop the stream, disconnect
and drop the analyser and the keep-alive gain, null both callbacks, clear the
detection state and isRecovering.  Idempotent; audioContext is not touched. -/
def stopListeningFn (st : SupState) : SupState :=
  { st with rafScheduled := false, stream := .noStream, analyserSet := false,
            keepAliveSet := false, callbackSet := false, statusCbSet := false,
            isRecovering := false }

/-- restartMicrophone up to the await of getUserMedia: bail out when
callbackRef is null; otherwise set isRecovering, report recovering, and stop
the old stream's tracks (the stream variable still points at the now-ended
stream). -/
def restartBegin (st : SupState) : SupState :=
  if st.callbackSet = false then st
  else
    { st with isRecovering := true,
              lastStatus := if st.statusCbSet then some .recovering else st.lastStatus,
              stream := if st.stream = .noStream then .noStream else .ended }

/-- restartMicrophone after the await: on success install the new live stream,
a new analyser and keep-alive gain, clear isRecovering and report listening;
on failure (getUserMedia threw) only clear isRecovering and report error.  No
branch re-checks whether stopListening ran in the meantime. -/
def restartComplete (st : SupState) (success : Bool) (now : ℚ) : SupState :=
  if success then
    { st with stream := .live, analyserSet := true, keepAliveSet := true,
              isRecovering := false, lastAudioDetectedAt := now,
              lastStatus := if st.statusCbSet then some .listening else st.lastStatus }
  else
    { st with isRecovering := false,
              lastStatus := if st.statusCbSet then some .error else st.lastStatus }

inductive TickDecision
  | halt
  | recover
  | proceed
deriving DecidableEq

/-- The decision structure at the top of tick (lines 140-175): return when
analyser, audioContext or callbackRef is gone; start a recovery when the
track is not live and no recovery is under way; otherwise, when rms stays at
or below 0.01 and no audio has been detected for longer than the recovery
timeout, start a recovery; otherwise proceed to the stabilization step. -/
def tickCheck (st : SupState) (now rms timeout : ℚ) : TickDecision :=
  if st.analyserSet = false ∨ st.callbackSet = false then .halt
  else if st.stream ≠ .live ∧ st.isRecovering = false then .recover
  else if (1/100 : ℚ) < rms then .proceed
  else if st.isRecovering = false ∧ timeout < now - st.lastAudioDetectedAt then .recover
  else .proceed

/-! ## Random note sampling (noteUtils, current revision)

Modelled from the spec: the five-parameter randomNoteInRange(low, high,
includeAccidentals, avoidRepetition, previous) invoked by generateNewNotes in
Index.tsx is not present under src — src carries only an older two-parameter
revision of noteUtils, which the five-argument call sites no longer match.
Per the spec it samples a MIDI value uniformly from
[noteToMidi low, noteToMidi high]; when accidentals are excluded the sample
space is restricted to the naturals of that range (filtering the candidate
set, one of the two sanctioned implementations, which terminates by
construction); when avoidRepetition is set and a previous note is supplied
the previous note's MIDI is removed from the candidates unless that leaves
none (the documented single-pitch fallback).  The random source is abstracted
as pick : Nat selecting an index into the candidate list. -/

/-- A MIDI value whose sharp-preferring spelling is a natural. -/
def isNaturalMidi (m : Int) : Bool :=
  match midiToNote m with
  | some n => decide (n.accidental = Accidental.natural)
  | none => false

/-- The candidate MIDI values between the bounds, restricted to naturals when
accidentals are excluded. -/
def midiCandidates (low high : Note) (includeAccidentals : Bool) : List Int :=
  let lo := noteToMidi low
  let hi := noteToMidi high
  let all := (List.range (hi + 1 - lo).toNat).map fun k => lo + k
  if includeAccidentals then all else all.filter isNaturalMidi

/-- Modelled from the spec: the current five-parameter randomNoteInRange (see
the section comment above). -/
def randomNoteInRange (low high : Note) (includeAccidentals avoidRepetition : Bool)
    (previous : Option Note) (pick : Nat) : Option Note :=
  let base := midiCandidates low high includeAccidentals
  let cands :=
    match previous, avoidRepetition with
    | some p, true =>
      let filtered := base.filter fun m => decide (m ≠ noteToMidi p)
      if filtered.isEmpty then base else filtered
    | _, _ => base
  match cands.get? (pick % cands.length) with
  | some m => midiToNote m
  | none => none

/-! ## Peak scan characterization -/

lemma peakFold_spec (ac : List ℚ) :
    ∀ (l : List Nat) (p0 : Int × ℚ),
      (∀ i ∈ l, 1 ≤ i ∧ i + 1 < ac.length) → 0 ≤ p0.2 →
      p0.2 ≤ (l.foldl (peakStep ac) p0).2 ∧
      (l.foldl (peakStep ac) p0 = p0 ∨
        ∃ i ∈ l, l.foldl (peakStep ac) p0 = ((i : Int), ac.getD i 0) ∧ isLocalMax ac i) ∧
      ∀ i ∈ l, isLocalMax ac i → ac.getD i 0 ≤ (l.foldl (peakStep ac) p0).2 := by
  intro l
  induction l with
  | nil =>
    intro p0 _ _
    exact ⟨le_refl _, Or.inl rfl, fun i hi => absurd hi (List.not_mem_nil i)⟩
  | cons a t ih =>
    intro p0 hb h0
    by_cases hc : p0.2 < ac.getD a 0 ∧ ac.getD (a - 1) 0 < ac.getD a 0 ∧
        ac.getD (a + 1) 0 < ac.getD a 0
    · have hstep : peakStep ac p0 a = ((a : Int), ac.getD a 0) := by
        simp only [peakStep, if_pos hc]
      have hmax : isLocalMax ac a :=
        ⟨(hb a (List.mem_cons_self a t)).1, (hb a (List.mem_cons_self a t)).2, hc.2.1, hc.2.2⟩
      have h1 : (0 : ℚ) ≤ ((a : Int), ac.getD a 0).2 := le_of_lt (lt_of_le_of_lt h0 hc.1)
      obtain ⟨imono, iid, ibound⟩ :=
        ih ((a : Int), ac.getD a 0) (fun i hi => hb i (List.mem_cons_of_mem a hi)) h1
      rw [List.foldl_cons, hstep]
      refine ⟨le_trans (le_of_lt hc.1) imono, ?_, ?_⟩
      · rcases iid with heq | ⟨i, hi, heq, hlm⟩
        · exact Or.inr ⟨a, List.mem_cons_self a t, heq, hmax⟩
        · exact Or.inr ⟨i, List.mem_cons_of_mem a hi, heq, hlm⟩
      · intro i hi hlm
        rcases List.mem_cons.mp hi with rfl | hit
        · exact imono
        · exact ibound i hit hlm
    · have hstep : peakStep ac p0 a = p0 := by
        simp only [peakStep, if_neg hc]
      obtain ⟨imono, iid, ibound⟩ :=
        ih p0 (fun i hi => hb i (List.mem_cons_of_mem a hi)) h0
      rw [List.foldl_cons, hstep]
      refine ⟨imono, ?_, ?_⟩
      · rcases iid with heq | ⟨i, hi, heq, hlm⟩
        · exact Or.inl heq
        · exact Or.inr ⟨i, List.mem_cons_of_mem a hi, heq, hlm⟩
      · intro i hi hlm
        rcases List.mem_cons.mp hi with rfl | hit
        · have hle : ac.getD i 0 ≤ p0.2 := by
            by_contra hlt
            exact hc ⟨lt_of_not_le hlt, hlm.2.2.1, hlm.2.2.2⟩
          exact le_trans hle imono
        · exact ibound i hit hlm

lemma isLocalMax_mem_scan (ac : List ℚ) (j : Nat) (h : isLocalMax ac j) :
    j ∈ List.range' 1 (ac.length - 2) := by
  rcases h with ⟨h1, h2, _, _⟩
  rw [List.mem_range'_1]
  omega

lemma peakScan_pos_spec (ac : List ℚ) (h : 0 < (peakScan ac).1) :
    ∃ lag : Nat, (peakScan ac).1 = (lag : Int) ∧ (peakScan ac).2 = ac.getD lag 0 ∧
      isLocalMax ac lag ∧ ∀ j, isLocalMax ac j → ac.getD j 0 ≤ ac.getD lag 0 := by
  have hb : ∀ i ∈ List.range' 1 (ac.length - 2), 1 ≤ i ∧ i + 1 < ac.length := by
    intro i hi
    rw [List.mem_range'_1] at hi
    omega
  obtain ⟨hmono, hid, hbound⟩ :=
    peakFold_spec ac (List.range' 1 (ac.length - 2)) (-1, 0) hb (le_refl 0)
  rcases hid with heq | ⟨i, hi, heq, hlm⟩
  · rw [show peakScan ac = List.foldl (peakStep ac) (-1, 0) (List.range' 1 (ac.length - 2))
        from rfl, heq] at h
    norm_num at h
  · have hps : peakScan ac = ((i : Int), ac.getD i 0) := heq
    refine ⟨i, by rw [hps], by rw [hps], hlm, ?_⟩
    intro j hj
    have hle := hbound j (isLocalMax_mem_scan ac j hj) hj
    rw [heq] at hle
    exact hle

lemma getPitch_some_spec (buffer : List ℚ) (sampleRate : ℚ) (f : ℚ)
    (h : getPitch buffer sampleRate = some f) :
    ∃ lag : Nat, 0 < lag ∧ isLocalMax (autocorr (trimStart buffer)) lag ∧
      (∀ j, isLocalMax (autocorr (trimStart buffer)) j →
        (autocorr (trimStart buffer)).getD j 0 ≤ (autocorr (trimStart buffer)).getD lag 0) ∧
      f = sampleRate / (lag : ℚ) ∧ 50 ≤ f ∧ f ≤ 2000 := by
  simp only [getPitch] at h
  split_ifs at h with h1 h2 h3
  obtain ⟨lag, hl1, _, hlm, hglob⟩ :=
    peakScan_pos_spec (autocorr (trimStart buffer)) (by omega)
  have hf : sampleRate / (((peakScan (autocorr (trimStart buffer))).1 : ℤ) : ℚ) = f :=
    Option.some.inj h
  push_neg at h3
  have hlagZ : (0 : ℤ) < (lag : ℤ) := by rw [← hl1]; omega
  have hlag : 0 < lag := by exact_mod_cast hlagZ
  refine ⟨lag, hlag, hlm, hglob, ?_, ?_, ?_⟩
  · rw [← hf, hl1]
    norm_cast
  · rw [← hf]
    exact h3.1
  · rw [← hf]
    exact h3.2

/-! ## Stabilization engine lemmas -/

lemma rearmStep_preserves (cfg : Config) (st : DetState) (fr : Frame)
    (h : rearmFires cfg st fr = false) :
    (rearmStep cfg st fr).lastEmittedMidi = st.lastEmittedMidi ∧
    (rearmStep cfg st fr).candidateMidi = st.candidateMidi ∧
    (rearmStep cfg st fr).candidateStartTs = st.candidateStartTs := by
  by_cases hr : fr.rms < cfg.rearmRmsThresh
  · cases hl : st.lowRmsSince with
    | none => simp [rearmStep, hr, hl]
    | some t0 =>
      have hd : ¬ cfg.rearmMs ≤ fr.now - t0 := by
        simpa [rearmFires, hr, hl] using h
      simp [rearmStep, hr, hl, hd]
  · simp [rearmStep, hr]

lemma rearmStep_of_fires (cfg : Config) (st : DetState) (fr : Frame)
    (h : rearmFires cfg st fr = true) :
    rearmStep cfg st fr =
      { st with lastEmittedMidi := none, candidateMidi := none, candidateStartTs := none } := by
  by_cases hr : fr.rms < cfg.rearmRmsThresh
  · cases hl : st.lowRmsSince with
    | none => simp [rearmFires, hr, hl] at h
    | some t0 =>
      have hd : cfg.rearmMs ≤ fr.now - t0 := by
        simpa [rearmFires, hr, hl] using h
      simp [rearmStep, hr, hl, hd]
  · simp [rearmFires, hr] at h

lemma rearmStep_of_highRms (cfg : Config) (st : DetState) (fr : Frame)
    (h : cfg.rearmRmsThresh ≤ fr.rms) :
    rearmStep cfg st fr = { st with lowRmsSince := none } := by
  simp [rearmStep, not_lt.mpr h]

lemma rearmFires_false_of_highRms (cfg : Config) (st : DetState) (fr : Frame)
    (h : cfg.rearmRmsThresh ≤ fr.rms) : rearmFires cfg st fr = false := by
  simp [rearmFires, not_lt.mpr h]

lemma runFrames_cons (cfg : Config) (st : DetState) (fr : Frame) (rest : List Frame) :
    runFrames cfg st (fr :: rest) =
      ((runFrames cfg (tickStep cfg st fr).1 rest).1,
        (tickStep cfg st fr).2.toList ++ (runFrames cfg (tickStep cfg st fr).1 rest).2) := rfl

lemma tickStep_noSignal_fields (cfg : Config) (st : DetState) (fr : Frame)
    (hp : fr.pitch = none) :
    (tickStep cfg st fr).2 = none ∧
    (tickStep cfg st fr).1.candidateMidi = none ∧
    (tickStep cfg st fr).1.candidateStartTs = none ∧
    (tickStep cfg st fr).1.lastEmittedMidi = (rearmStep cfg st fr).lastEmittedMidi ∧
    (tickStep cfg st fr).1.lowRmsSince = (rearmStep cfg st fr).lowRmsSince := by
  simp [tickStep, pitchStep, hp]

lemma tickStep_new_candidate_fields (cfg : Config) (st : DetState) (fr : Frame) (m : Int)
    (hfire : rearmFires cfg st fr = false) (hp : fr.pitch = some m)
    (hc : st.candidateMidi = none) :
    (tickStep cfg st fr).2 = none ∧
    (tickStep cfg st fr).1.candidateMidi = some m ∧
    (tickStep cfg st fr).1.candidateStartTs = some fr.now ∧
    (tickStep cfg st fr).1.lastEmittedMidi = st.lastEmittedMidi := by
  obtain ⟨e1, e2, _⟩ := rearmStep_preserves cfg st fr hfire
  simp [tickStep, pitchStep, hp, e2, hc, e1]

lemma tickStep_emit_fields (cfg : Config) (st : DetState) (fr : Frame) (m : Int) (t0 : ℚ)
    (hfire : rearmFires cfg st fr = false) (hp : fr.pitch = some m)
    (hc : st.candidateMidi = some m) (hts : st.candidateStartTs = some t0)
    (hd : cfg.minStableMs ≤ fr.now - t0) (hl : st.lastEmittedMidi ≠ some m) :
    (tickStep cfg st fr).2 = some m ∧
    (tickStep cfg st fr).1.candidateMidi = some m ∧
    (tickStep cfg st fr).1.candidateStartTs = some t0 ∧
    (tickStep cfg st fr).1.lastEmittedMidi = some m := by
  obtain ⟨e1, e2, e3⟩ := rearmStep_preserves cfg st fr hfire
  simp [tickStep, pitchStep, hp, e1, e2, e3, hc, hts, hd, hl]

lemma tickStep_hold_fields (cfg : Config) (st : DetState) (fr : Frame) (m : Int) (t0 : ℚ)
    (hfire : rearmFires cfg st fr = false) (hp : fr.pitch = some m)
    (hc : st.candidateMidi = some m) (hts : st.candidateStartTs = some t0)
    (hnot : ¬(cfg.minStableMs ≤ fr.now - t0 ∧ st.lastEmittedMidi ≠ some m)) :
    (tickStep cfg st fr).2 = none ∧
    (tickStep cfg st fr).1.candidateMidi = some m ∧
    (tickStep cfg st fr).1.candidateStartTs = some t0 ∧
    (tickStep cfg st fr).1.lastEmittedMidi = st.lastEmittedMidi := by
  obtain ⟨e1, e2, e3⟩ := rearmStep_preserves cfg st fr hfire
  by_cases hd : cfg.minStableMs ≤ fr.now - t0
  · have hl : st.lastEmittedMidi = some m := by
      by_contra hx
      exact hnot ⟨hd, hx⟩
    simp [tickStep, pitchStep, hp, e1, e2, e3, hc, hts, hd, hl]
  · simp [tickStep, pitchStep, hp, e1, e2, e3, hc, hts, hd]

lemma noRearmRun_cons (cfg : Config) (st : DetState) (fr : Frame) (rest : List Frame)
    (h : noRearmRun cfg st (fr :: rest) = true) :
    rearmFires cfg st fr = false ∧ noRearmRun cfg (tickStep cfg st fr).1 rest = true := by
  simpa [noRearmRun, Bool.and_eq_true] using h

lemma noRearmRun_of_highRms (cfg : Config) :
    ∀ (frames : List Frame) (st : DetState),
      (∀ fr ∈ frames, cfg.rearmRmsThresh ≤ fr.rms) → noRearmRun cfg st frames = true := by
  intro frames
  induction frames with
  | nil => intro st _; rfl
  | cons fr rest ih =>
    intro st hall
    have h1 : rearmFires cfg st fr = false :=
      rearmFires_false_of_highRms cfg st fr (hall fr (List.mem_cons_self fr rest))
    simp [noRearmRun, h1, ih _ fun g hg => hall g (List.mem_cons_of_mem fr hg)]

/-- A run of frames holding a constant pitch m while the candidate is already
m with start timestamp t0 emits exactly one m — at the first frame at least
minStableMs past t0, provided m is not the last emitted MIDI — and nothing
else. -/
lemma runFrames_holding (cfg : Config) (m : Int) (t0 : ℚ) :
    ∀ (frames : List Frame) (st : DetState),
      st.candidateMidi = some m → st.candidateStartTs = some t0 →
      noRearmRun cfg st frames = true →
      (∀ fr ∈ frames, fr.pitch = some m) →
      (runFrames cfg st frames).2 =
        if (∃ fr ∈ frames, cfg.minStableMs ≤ fr.now - t0) ∧ st.lastEmittedMidi ≠ some m
        then [m] else [] := by
  intro frames
  induction frames with
  | nil => intro st _ _ _ _; simp [runFrames]
  | cons fr rest ih =>
    intro st hc hts hnr hp
    obtain ⟨hfire, hnr2⟩ := noRearmRun_cons cfg st fr rest hnr
    have hprest : ∀ g ∈ rest, g.pitch = some m := fun g hg => hp g (List.mem_cons_of_mem fr hg)
    rw [runFrames_cons]
    by_cases hcond : cfg.minStableMs ≤ fr.now - t0 ∧ st.lastEmittedMidi ≠ some m
    · obtain ⟨hemit, f1, f2, f3⟩ := tickStep_emit_fields cfg st fr m t0 hfire
        (hp fr (List.mem_cons_self fr rest)) hc hts hcond.1 hcond.2
      rw [hemit, ih (tickStep cfg st fr).1 f1 f2 hnr2 hprest,
        if_neg (by simp [f3]),
        if_pos ⟨⟨fr, List.mem_cons_self fr rest, hcond.1⟩, hcond.2⟩]
      rfl
    · obtain ⟨hemit, f1, f2, f3⟩ := tickStep_hold_fields cfg st fr m t0 hfire
        (hp fr (List.mem_cons_self fr rest)) hc hts hcond
      rw [hemit, ih (tickStep cfg st fr).1 f1 f2 hnr2 hprest, f3]
      simp only [Option.toList_none, List.nil_append]
      by_cases hd : cfg.minStableMs ≤ fr.now - t0
      · have hl : st.lastEmittedMidi = some m := by
          by_contra hx
          exact hcond ⟨hd, hx⟩
        rw [if_neg (by simp [hl]), if_neg (by simp [hl])]
      · have hiff : ((∃ g ∈ rest, cfg.minStableMs ≤ g.now - t0) ∧
              st.lastEmittedMidi ≠ some m) ↔
            ((∃ g ∈ fr :: rest, cfg.minStableMs ≤ g.now - t0) ∧
              st.lastEmittedMidi ≠ some m) := by
          constructor
          · rintro ⟨⟨g, hg, hgd⟩, hne⟩
            exact ⟨⟨g, List.mem_cons_of_mem fr hg, hgd⟩, hne⟩
          · rintro ⟨⟨g, hg, hgd⟩, hne⟩
            rcases List.mem_cons.mp hg with rfl | hg2
            · exact absurd hgd hd
            · exact ⟨⟨g, hg2, hgd⟩, hne⟩
        exact if_congr hiff rfl rfl

/-- A run of frames holding a constant pitch m from a state with no candidate:
the first frame starts candidacy at its own timestamp, and exactly one m is
emitted as soon as some later frame lies minStableMs past it, provided m is
not the last emitted MIDI. -/
lemma runFrames_fresh (cfg : Config) (m : Int) (f0 : Frame) (rest : List Frame) (st : DetState)
    (hc : st.candidateMidi = none)
    (hp : ∀ fr ∈ f0 :: rest, fr.pitch = some m)
    (hnr : noRearmRun cfg st (f0 :: rest) = true) :
    (runFrames cfg st (f0 :: rest)).2 =
      if (∃ fr ∈ rest, cfg.minStableMs ≤ fr.now - f0.now) ∧ st.lastEmittedMidi ≠ some m
      then [m] else [] := by
  obtain ⟨hfire, hnr2⟩ := noRearmRun_cons cfg st f0 rest hnr
  obtain ⟨hemit, f1, f2, f3⟩ := tickStep_new_candidate_fields cfg st f0 m hfire
    (hp f0 (List.mem_cons_self f0 rest)) hc
  rw [runFrames_cons, hemit,
    runFrames_holding cfg m f0.now rest (tickStep cfg st f0).1 f1 f2 hnr2
      (fun g hg => hp g (List.mem_cons_of_mem f0 hg)), f3]
  simp only [Option.toList_none, List.nil_append]

lemma runFrames_append (cfg : Config) :
    ∀ (l1 l2 : List Frame) (st : DetState),
      (runFrames cfg st (l1 ++ l2)).2 =
        (runFrames cfg st l1).2 ++ (runFrames cfg (runFrames cfg st l1).1 l2).2 := by
  intro l1
  induction l1 with
  | nil => intro l2 st; simp [runFrames]
  | cons fr t ih =>
    intro l2 st
    rw [List.cons_append, runFrames_cons, runFrames_cons]
    simp only [runFrames]
    rw [ih l2 (tickStep cfg st fr).1]
    simp [List.append_assoc]

lemma runFrames_lowRms_aux (cfg : Config) (ta : ℚ) :
    ∀ (gs : List Frame) (st : DetState),
      st.lowRmsSince = some ta → st.candidateMidi = none → st.candidateStartTs = none →
      (∀ fr ∈ gs, fr.pitch = none) → (∀ fr ∈ gs, fr.rms < cfg.rearmRmsThresh) →
      (runFrames cfg st gs).2 = [] ∧
      (runFrames cfg st gs).1.candidateMidi = none ∧
      (runFrames cfg st gs).1.candidateStartTs = none ∧
      (runFrames cfg st gs).1.lowRmsSince = some ta ∧
      (runFrames cfg st gs).1.lastEmittedMidi =
        (if ∃ fr ∈ gs, cfg.rearmMs ≤ fr.now - ta then none else st.lastEmittedMidi) := by
  intro gs
  induction gs with
  | nil => intro st h1 h2 h3 _ _; exact ⟨rfl, h2, h3, h1, by simp [runFrames]⟩
  | cons fr rest ih =>
    intro st h1 h2 h3 hp hr
    have hrfr := hr fr (List.mem_cons_self fr rest)
    have hpfr := hp fr (List.mem_cons_self fr rest)
    obtain ⟨g0, g1, g2, g3, g4⟩ := tickStep_noSignal_fields cfg st fr hpfr
    have hprest : ∀ g ∈ rest, g.pitch = none := fun g hg => hp g (List.mem_cons_of_mem fr hg)
    have hrrest : ∀ g ∈ rest, g.rms < cfg.rearmRmsThresh :=
      fun g hg => hr g (List.mem_cons_of_mem fr hg)
    by_cases hfi : cfg.rearmMs ≤ fr.now - ta
    · have hfires : rearmFires cfg st fr = true := by simp [rearmFires, hrfr, h1, hfi]
      have hrs := rearmStep_of_fires cfg st fr hfires
      have l3 : (tickStep cfg st fr).1.lastEmittedMidi = none := by rw [g3, hrs]
      have l4 : (tickStep cfg st fr).1.lowRmsSince = some ta := by rw [g4, hrs]; exact h1
      obtain ⟨i0, i1, i2, i3, i4⟩ := ih (tickStep cfg st fr).1 l4 g1 g2 hprest hrrest
      rw [l3] at i4
      refine ⟨?_, i1, i2, i3, ?_⟩
      · rw [runFrames_cons, g0, i0]
        rfl
      · rw [runFrames_cons]
        rw [i4, if_pos (show ∃ g ∈ fr :: rest, cfg.rearmMs ≤ g.now - ta from
          ⟨fr, List.mem_cons_self fr rest, hfi⟩)]
        split_ifs <;> rfl
    · have hrs : rearmStep cfg st fr = st := by simp [rearmStep, hrfr, h1, hfi]
      have l3 : (tickStep cfg st fr).1.lastEmittedMidi = st.lastEmittedMidi := by rw [g3, hrs]
      have l4 : (tickStep cfg st fr).1.lowRmsSince = some ta := by rw [g4, hrs]; exact h1
      obtain ⟨i0, i1, i2, i3, i4⟩ := ih (tickStep cfg st fr).1 l4 g1 g2 hprest hrrest
      rw [l3] at i4
      refine ⟨?_, i1, i2, i3, ?_⟩
      · rw [runFrames_cons, g0, i0]
        rfl
      · rw [runFrames_cons, i4]
        have hiff : (∃ g ∈ rest, cfg.rearmMs ≤ g.now - ta) ↔
            (∃ g ∈ fr :: rest, cfg.rearmMs ≤ g.now - ta) := by
          constructor
          · rintro ⟨g, hg, hgd⟩
            exact ⟨g, List.mem_cons_of_mem fr hg, hgd⟩
          · rintro ⟨g, hg, hgd⟩
            rcases List.mem_cons.mp hg with rfl | hg2
            · exact absurd hgd hfi
            · exact ⟨g, hg2, hgd⟩
        exact if_congr hiff rfl rfl

/-- A nonempty all-quiet (low RMS, no pitch) frame run that spans at least
rearmMs from its first frame clears the last emitted MIDI and the candidate
tracking and emits nothing. -/
lemma runFrames_lowRms (cfg : Config) (g0 : Frame) (gs : List Frame) (st : DetState)
    (hlow : st.lowRmsSince = none)
    (hp : ∀ fr ∈ g0 :: gs, fr.pitch = none)
    (hr : ∀ fr ∈ g0 :: gs, fr.rms < cfg.rearmRmsThresh)
    (hd : ∃ fr ∈ gs, cfg.rearmMs ≤ fr.now - g0.now) :
    (runFrames cfg st (g0 :: gs)).2 = [] ∧
    (runFrames cfg st (g0 :: gs)).1.candidateMidi = none ∧
    (runFrames cfg st (g0 :: gs)).1.candidateStartTs = none ∧
    (runFrames cfg st (g0 :: gs)).1.lastEmittedMidi = none := by
  have hrs : rearmStep cfg st g0 = { st with lowRmsSince := some g0.now } := by
    simp [rearmStep, hr g0 (List.mem_cons_self g0 gs), hlow]
  obtain ⟨e0, e1, e2, e3, e4⟩ :=
    tickStep_noSignal_fields cfg st g0 (hp g0 (List.mem_cons_self g0 gs))
  obtain ⟨i0, i1, i2, _, i4⟩ := runFrames_lowRms_aux cfg g0.now gs (tickStep cfg st g0).1
    (by rw [e4, hrs]) e1 e2 (fun fr hf => hp fr (List.mem_cons_of_mem g0 hf))
    (fun fr hf => hr fr (List.mem_cons_of_mem g0 hf))
  rw [runFrames_cons, e0]
  exact ⟨by simp [i0], i1, i2, by rw [i4, if_pos hd]⟩

/-! ## Frequency quantization bounds -/

lemma logb_ratio_lower : (-(77/24) : ℝ) ≤ Real.logb 2 (50/440) := by
  rw [Real.logb, le_div_iff₀ (Real.log_pos (by norm_num))]
  have key : ((2:ℝ) ^ (77:ℕ))⁻¹ ≤ (50/440 : ℝ) ^ (24:ℕ) := by norm_num
  have hlog := Real.log_le_log (by positivity) key
  rw [Real.log_inv, Real.log_pow, Real.log_pow] at hlog
  push_cast at hlog
  linarith

lemma logb_ratio_upper : Real.logb 2 (2000/440) < (53/24 : ℝ) := by
  rw [Real.logb, div_lt_iff₀ (Real.log_pos (by norm_num))]
  have key : (2000/440 : ℝ) ^ (24:ℕ) < (2:ℝ) ^ (53:ℕ) := by norm_num
  have hlog := Real.log_lt_log (by positivity) key
  rw [Real.log_pow, Real.log_pow] at hlog
  push_cast at hlog
  linarith

/-- Quantizing any frequency in the accepted band 50..2000 Hz lands in MIDI
31..95. -/
lemma freqToMidi_bounds (x : ℝ) (h1 : 50 ≤ x) (h2 : x ≤ 2000) :
    31 ≤ freqToMidi x ∧ freqToMidi x ≤ 95 := by
  have hlo : Real.logb 2 (50/440) ≤ Real.logb 2 (x/440) :=
    Real.logb_le_logb_of_le (by norm_num) (by norm_num) (by linarith)
  have hhi : Real.logb 2 (x/440) ≤ Real.logb 2 (2000/440) :=
    Real.logb_le_logb_of_le (by norm_num) (by linarith) (by linarith)
  have hlow2 : (61/2 : ℝ) ≤ 69 + 12 * Real.logb 2 (x/440) := by
    have := logb_ratio_lower
    linarith
  have hup2 : 69 + 12 * Real.logb 2 (x/440) < (191/2 : ℝ) := by
    have := logb_ratio_upper
    linarith
  unfold freqToMidi
  rw [round_eq]
  constructor
  · refine Int.le_floor.mpr ?_
    push_cast
    linarith
  · have h96 : (⌊(69:ℝ) + 12 * Real.logb 2 (x/440) + 1/2⌋ : ℤ) < 96 := by
      refine Int.floor_lt.mpr ?_
      push_cast
      linarith
    omega

/-- The frequencies getPitch can return are confined to the 50..2000 band. -/
lemma getPitch_freq_bounds (buffer : List ℚ) (sampleRate : ℚ) (f : ℚ)
    (h : getPitch buffer sampleRate = some f) : 50 ≤ f ∧ f ≤ 2000 := by
  obtain ⟨_, _, _, _, _, h50, h2000⟩ := getPitch_some_spec buffer sampleRate f h
  exact ⟨h50, h2000⟩

/-! ## Further helper lemmas -/

lemma pitchStep_lowRmsSince (cfg : Config) (st : DetState) (fr : Frame) :
    (pitchStep cfg st fr).1.lowRmsSince = st.lowRmsSince := by
  unfold pitchStep
  split
  · split_ifs <;> try rfl
    all_goals split <;> first | rfl | (split_ifs <;> rfl)
  · rfl

lemma tickStep_lowRmsSince_highRms (cfg : Config) (st : DetState) (fr : Frame)
    (h : cfg.rearmRmsThresh ≤ fr.rms) : (tickStep cfg st fr).1.lowRmsSince = none := by
  show (pitchStep cfg (rearmStep cfg st fr) fr).1.lowRmsSince = none
  rw [pitchStep_lowRmsSince, rearmStep_of_highRms cfg st fr h]

lemma midiCandidates_false (low high : Note) :
    midiCandidates low high false = (midiCandidates low high true).filter isNaturalMidi := by
  simp [midiCandidates]

lemma randomNote_from_candidates (low high : Note) (inc avoid : Bool) (prev : Option Note)
    (pick : Nat) (n : Note)
    (h : randomNoteInRange low high inc avoid prev pick = some n) :
    ∃ m ∈ midiCandidates low high inc, midiToNote m = some n := by
  unfold randomNoteInRange at h
  cases prev with
  | none =>
    dsimp only at h
    cases hg : (midiCandidates low high inc).get?
        (pick % (midiCandidates low high inc).length) with
    | none => rw [hg] at h; exact absurd h (by simp)
    | some m => rw [hg] at h; exact ⟨m, List.get?_mem hg, h⟩
  | some p =>
    cases avoid with
    | false =>
      dsimp only at h
      cases hg : (midiCandidates low high inc).get?
          (pick % (midiCandidates low high inc).length) with
      | none => rw [hg] at h; exact absurd h (by simp)
      | some m => rw [hg] at h; exact ⟨m, List.get?_mem hg, h⟩
    | true =>
      dsimp only at h
      by_cases he :
          ((midiCandidates low high inc).filter fun m => decide (m ≠ noteToMidi p)).isEmpty
      · rw [if_pos he] at h
        cases hg : (midiCandidates low high inc).get?
            (pick % (midiCandidates low high inc).length) with
        | none => rw [hg] at h; exact absurd h (by simp)
        | some m => rw [hg] at h; exact ⟨m, List.get?_mem hg, h⟩
      · rw [if_neg he] at h
        set flt := (midiCandidates low high inc).filter fun m => decide (m ≠ noteToMidi p)
          with hflt
        cases hg : flt.get? (pick % flt.length) with
        | none => rw [hg] at h; exact absurd h (by simp)
        | some m =>
          rw [hg] at h
          exact ⟨m, List.mem_of_mem_filter (List.get?_mem hg), h⟩

/-! ## Claims -/

/-- Claim C1: over any frame sequence whose extracted pitch quantizes to one
constant MIDI value m, with no no-signal frame and no re-arm expiry, starting
with no candidate, the stabilization step emits nothing while every frame is
less than minStableMs past the candidate start (the first frame's timestamp);
as soon as some frame is at least minStableMs past it and m differs from the
last emitted MIDI, exactly one note — midiToNote m — is emitted, and nothing
further while the same m persists. -/
theorem stable_pitch_emits_once (cfg : Config) (st : DetState) (m : Int) (f0 : Frame)
    (rest : List Frame)
    (hp : ∀ fr ∈ f0 :: rest, fr.pitch = some m)
    (hc : st.candidateMidi = none)
    (hnr : noRearmRun cfg st (f0 :: rest) = true) :
    (runFrames cfg st (f0 :: rest)).2 =
      (if (∃ fr ∈ rest, cfg.minStableMs ≤ fr.now - f0.now) ∧ st.lastEmittedMidi ≠ some m
       then [m] else []) ∧
    (runFrames cfg st (f0 :: rest)).2.map midiToNote =
      (if (∃ fr ∈ rest, cfg.minStableMs ≤ fr.now - f0.now) ∧ st.lastEmittedMidi ≠ some m
       then [midiToNote m] else []) := by
  have h := runFrames_fresh cfg m f0 rest st hc hp hnr
  refine ⟨h, ?_⟩
  rw [h]
  split_ifs <;> rfl

/-- Witness for C1 at the defaults: three frames at MIDI 60 (0 ms, 100 ms,
260 ms); exactly one emission, once 260 - 0 reaches 250 ms. -/
theorem stable_pitch_emits_once_witness :
    (runFrames defaultConfig freshDetState
      [⟨0, 1, some 60⟩, ⟨100, 1, some 60⟩, ⟨260, 1, some 60⟩]).2 = [60] := by
  have h := (stable_pitch_emits_once defaultConfig freshDetState 60 ⟨0, 1, some 60⟩
    [⟨100, 1, some 60⟩, ⟨260, 1, some 60⟩] (by decide) rfl (by decide)).1
  rw [h, if_pos (by decide)]

/-- Claim C2: from a state that has just emitted m (with the low-RMS timer
idle), a nonempty all-quiet run (RMS below rearmRmsThresh, no extracted
pitch) spanning at least rearmMs clears the last emitted MIDI and the
candidate tracking; renewed frames stable at the same m for minStableMs then
produce a second emission of the same note; and any frame whose RMS is not
below rearmRmsThresh resets the low-RMS timer to not-yet-started. -/
theorem rearm_allows_reemission (cfg : Config) (st : DetState) (m : Int)
    (g0 s0 : Frame) (gs ss : List Frame)
    (hlem : st.lastEmittedMidi = some m)
    (hlow : st.lowRmsSince = none)
    (hLp : ∀ fr ∈ g0 :: gs, fr.pitch = none)
    (hLr : ∀ fr ∈ g0 :: gs, fr.rms < cfg.rearmRmsThresh)
    (hLd : ∃ fr ∈ gs, cfg.rearmMs ≤ fr.now - g0.now)
    (hSp : ∀ fr ∈ s0 :: ss, fr.pitch = some m)
    (hSr : ∀ fr ∈ s0 :: ss, cfg.rearmRmsThresh ≤ fr.rms)
    (hSd : ∃ fr ∈ ss, cfg.minStableMs ≤ fr.now - s0.now) :
    (runFrames cfg st (g0 :: gs)).1.lastEmittedMidi = none ∧
    (runFrames cfg st (g0 :: gs)).1.candidateMidi = none ∧
    (runFrames cfg st (g0 :: gs)).1.candidateStartTs = none ∧
    (runFrames cfg st ((g0 :: gs) ++ (s0 :: ss))).2 = [m] ∧
    (runFrames cfg st ((g0 :: gs) ++ (s0 :: ss))).2.map midiToNote = [midiToNote m] ∧
    (∀ (st2 : DetState) (fr : Frame), cfg.rearmRmsThresh ≤ fr.rms →
      (tickStep cfg st2 fr).1.lowRmsSince = none) := by
  obtain ⟨l0, l1, l2, l3⟩ := runFrames_lowRms cfg g0 gs st hlow hLp hLr hLd
  have hrun : (runFrames cfg st ((g0 :: gs) ++ (s0 :: ss))).2 = [m] := by
    rw [runFrames_append, l0, List.nil_append]
    rw [runFrames_fresh cfg m s0 ss _ l1 hSp
      (noRearmRun_of_highRms cfg _ _ hSr)]
    rw [if_pos ⟨hSd, by rw [l3]; simp⟩]
  refine ⟨l3, l1, l2, hrun, by rw [hrun]; rfl, ?_⟩
  intro st2 fr hfr
  exact tickStep_lowRmsSince_highRms cfg st2 fr hfr

/-- Witness for C2 at the defaults: after emitting 60, quiet frames at 0 ms
and 130 ms (spanning 130 ≥ 120 ms) re-arm the engine, and frames at 60 again
at 200 ms and 500 ms (spanning 300 ≥ 250 ms) re-emit 60. -/
theorem rearm_allows_reemission_witness :
    (runFrames defaultConfig ⟨some 60, some 60, some 0, none⟩
      ([⟨0, 0, none⟩, ⟨130, 0, none⟩] ++ [⟨200, 1, some 60⟩, ⟨500, 1, some 60⟩])).2
      = [60] :=
  (rearm_allows_reemission defaultConfig ⟨some 60, some 60, some 0, none⟩ 60
    ⟨0, 0, none⟩ ⟨200, 1, some 60⟩ [⟨130, 0, none⟩] [⟨500, 1, some 60⟩]
    rfl rfl (by decide) (by decide) (by decide) (by decide) (by decide)
    (by decide)).2.2.2.1

/-- Claim C3 counterexample: midiToNote is not a total inverse over the
negative integers — at midi = -1 the JS remainder is -1, semitonesMap[-1] is
undefined and the destructuring throws (modelled: none), so the round trip
noteToMidi (midiToNote (-1)) = -1 fails. -/
theorem midiToNote_negative_counterexample :
    midiToNote (-1) = none ∧ (midiToNote (-1)).map noteToMidi ≠ some (-1) := by decide

/-- Claim C3 (amended): whenever midiToNote m returns a note — which it does
for every m ≥ 0, octave = floor(m/12) - 1 and the sharp-preferring entry at
the nonnegative remainder m % 12 — the round trip noteToMidi (midiToNote m)
= m holds; for negative m not divisible by 12 the JS remainder is negative
and midiToNote crashes instead of returning a note. -/
theorem noteToMidi_midiToNote_roundtrip (m : Int) :
    (∀ n, midiToNote m = some n → noteToMidi n = m) ∧
    (0 ≤ m → (midiToNote m).isSome) :=
  ⟨fun n h => noteToMidi_of_midiToNote m n h, fun h => midiToNote_isSome_of_nonneg m h⟩

/-- Witness for C3 at m = 61: midiToNote 61 = C#4 and noteToMidi C#4 = 61. -/
theorem noteToMidi_midiToNote_roundtrip_witness :
    noteToMidi ⟨NoteLetter.C, Accidental.sharp, 4⟩ = 61 :=
  (noteToMidi_midiToNote_roundtrip 61).1 ⟨NoteLetter.C, Accidental.sharp, 4⟩ (by decide)

/-- Claim C4: getPitch reports no signal whenever the frame RMS is below the
0.01 silence gate (stated on squared values: rms < 0.01 iff meanSquare <
0.01^2); and whenever it returns a frequency f, f = sampleRate / lag for a
strict local maximum lag of the autocorrelation of the trimmed buffer whose
peak value is the globally largest, with f confined to 50..2000 Hz. -/
theorem getPitch_spec (buffer : List ℚ) (sampleRate : ℚ) :
    (meanSquare buffer < (1/100 : ℚ) ^ 2 → getPitch buffer sampleRate = none) ∧
    ∀ f, getPitch buffer sampleRate = some f →
      ∃ lag : Nat, 0 < lag ∧ isLocalMax (autocorr (trimStart buffer)) lag ∧
        (∀ j, isLocalMax (autocorr (trimStart buffer)) j →
          (autocorr (trimStart buffer)).getD j 0 ≤ (autocorr (trimStart buffer)).getD lag 0) ∧
        f = sampleRate / (lag : ℚ) ∧ 50 ≤ f ∧ f ≤ 2000 :=
  ⟨fun h => by unfold getPitch; rw [if_pos h],
    fun f h => getPitch_some_spec buffer sampleRate f h⟩

/-- Witness for C4: the all-zero buffer is gated to none, and the alternating
buffer (period 2) at sample rate 1000 yields 500 Hz from the best peak. -/
theorem getPitch_spec_witness :
    getPitch [0, 0, 0, 0] 44100 = none ∧
    ∃ lag : Nat, 0 < lag ∧
      isLocalMax (autocorr (trimStart [(1:ℚ)/2, -1/2, 1/2, -1/2])) lag ∧
      (∀ j, isLocalMax (autocorr (trimStart [(1:ℚ)/2, -1/2, 1/2, -1/2])) j →
        (autocorr (trimStart [(1:ℚ)/2, -1/2, 1/2, -1/2])).getD j 0 ≤
          (autocorr (trimStart [(1:ℚ)/2, -1/2, 1/2, -1/2])).getD lag 0) ∧
      (500 : ℚ) = 1000 / (lag : ℚ) ∧ (50 : ℚ) ≤ 500 ∧ (500 : ℚ) ≤ 2000 :=
  ⟨(getPitch_spec [0, 0, 0, 0] 44100).1 (by decide),
    (getPitch_spec [(1:ℚ)/2, -1/2, 1/2, -1/2] 1000).2 500 (by decide)⟩

/-- Claim C5: with accidentals excluded, randomNoteInRange never returns a
sharp or flat note, for any bounds, any avoid-repetition setting and any
outcome of the random source; the sample space itself is the naturals-only
filter of the full candidate range (restricted, not re-spelled). -/
theorem randomNote_no_accidentals (low high : Note) (avoid : Bool) (prev : Option Note)
    (pick : Nat) (n : Note)
    (h : randomNoteInRange low high false avoid prev pick = some n) :
    n.accidental = Accidental.natural ∧
    midiCandidates low high false = (midiCandidates low high true).filter isNaturalMidi := by
  refine ⟨?_, midiCandidates_false low high⟩
  obtain ⟨m, hm, hmn⟩ := randomNote_from_candidates low high false avoid prev pick n h
  rw [midiCandidates_false] at hm
  have hnat : isNaturalMidi m = true := List.of_mem_filter hm
  unfold isNaturalMidi at hnat
  rw [hmn] at hnat
  simpa using hnat

/-- Witness for C5: sampling C4..C5 without accidentals at pick 1 returns the
natural D4. -/
theorem randomNote_no_accidentals_witness :
    (⟨NoteLetter.D, Accidental.natural, 4⟩ : Note).accidental = Accidental.natural ∧
    midiCandidates ⟨NoteLetter.C, Accidental.natural, 4⟩ ⟨NoteLetter.C, Accidental.natural, 5⟩
        false =
      (midiCandidates ⟨NoteLetter.C, Accidental.natural, 4⟩
        ⟨NoteLetter.C, Accidental.natural, 5⟩ true).filter isNaturalMidi :=
  randomNote_no_accidentals ⟨NoteLetter.C, Accidental.natural, 4⟩
    ⟨NoteLetter.C, Accidental.natural, 5⟩ false none 1
    ⟨NoteLetter.D, Accidental.natural, 4⟩ (by decide)

/-- Claim C6: with avoid-repetition on and a previous note supplied, the
returned note's MIDI differs from the previous note's MIDI for every random
outcome, except in the documented fallback where the previous note is the
only eligible pitch of the range (the model filters the candidate set, so
resampling terminates by construction). -/
theorem randomNote_avoids_previous (low high : Note) (inc : Bool) (p : Note) (pick : Nat)
    (n : Note)
    (h : randomNoteInRange low high inc true (some p) pick = some n)
    (hex : ∃ m ∈ midiCandidates low high inc, m ≠ noteToMidi p) :
    noteToMidi n ≠ noteToMidi p := by
  unfold randomNoteInRange at h
  dsimp only at h
  obtain ⟨m0, hm0, hm0ne⟩ := hex
  have hmem : m0 ∈ (midiCandidates low high inc).filter fun m => decide (m ≠ noteToMidi p) :=
    List.mem_filter.mpr ⟨hm0, by simpa using hm0ne⟩
  have hne : ((midiCandidates low high inc).filter
      fun m => decide (m ≠ noteToMidi p)).isEmpty = false := by
    rcases hh : ((midiCandidates low high inc).filter
        fun m => decide (m ≠ noteToMidi p)) with _ | ⟨a, t⟩
    · rw [hh] at hmem
      exact absurd hmem (List.not_mem_nil m0)
    · rfl
  rw [hne] at h
  simp only [Bool.false_eq_true, if_false] at h
  set flt := (midiCandidates low high inc).filter fun m => decide (m ≠ noteToMidi p)
    with hflt
  cases hg : flt.get? (pick % flt.length) with
  | none => rw [hg] at h; exact absurd h (by simp)
  | some m =>
    rw [hg] at h
    have hmf : m ∈ flt := List.get?_mem hg
    have hmne : m ≠ noteToMidi p := by simpa using List.of_mem_filter hmf
    rw [noteToMidi_of_midiToNote m n h]
    exact hmne

/-- Witness for C6: sampling C4..C5 naturals with previous C4 at pick 0
returns D4, whose MIDI 62 differs from 60. -/
theorem randomNote_avoids_previous_witness :
    noteToMidi ⟨NoteLetter.D, Accidental.natural, 4⟩ ≠
      noteToMidi ⟨NoteLetter.C, Accidental.natural, 4⟩ :=
  randomNote_avoids_previous ⟨NoteLetter.C, Accidental.natural, 4⟩
    ⟨NoteLetter.C, Accidental.natural, 5⟩ false ⟨NoteLetter.C, Accidental.natural, 4⟩ 0
    ⟨NoteLetter.D, Accidental.natural, 4⟩ (by decide) (by decide)

/-- Claim C7 counterexample: after a recovery attempt fails (restartComplete
with success = false, which reports status error), the frame loop is
rescheduled and the very next tick — the track still not live, isRecovering
back to false — starts another automatic recovery attempt, with no
startListening call in between.  The claim that the engine performs no
further automatic attempts until startListening is therefore false. -/
theorem recovery_retries_after_error :
    (restartComplete (restartBegin
        ⟨true, true, true, true, .ended, false, true, 0, some .listening⟩) false 16).lastStatus
      = some MicStatus.error ∧
    tickCheck (restartComplete (restartBegin
        ⟨true, true, true, true, .ended, false, true, 0, some .listening⟩) false 16)
      32 0 5000 = TickDecision.recover := by decide

/-- Claim C7 (amended): after a failed recovery attempt the engine keeps
retrying automatically — a failed restartMicrophone leaves isRecovering =
false and a dead (non-live) stream, it reschedules the frame loop from the
tick-initiated .then, and every subsequent tick whose guard still sees the
analyser and callback triggers a new recovery attempt; no new startListening
call is required. -/
theorem tick_retries_recovery (st : SupState) (now rms timeout : ℚ)
    (hcb : st.callbackSet = true) (han : st.analyserSet = true)
    (hrec : st.isRecovering = false) (hstream : st.stream ≠ StreamState.live) :
    tickCheck st now rms timeout = TickDecision.recover := by
  unfold tickCheck
  rw [if_neg (by simp [hcb, han]), if_pos ⟨hstream, hrec⟩]

/-- Witness for the amended C7: the concrete post-failure state retriggers
recovery on the next frame. -/
theorem tick_retries_recovery_witness :
    tickCheck (restartComplete (restartBegin
        ⟨true, true, true, true, .ended, false, true, 0, some .listening⟩) false 16)
      48 0 5000 = TickDecision.recover :=
  tick_retries_recovery _ 48 0 5000 (by decide) (by decide) (by decide) (by decide)

/-- Claim C8 (code bug): restartMicrophone performs no stopped-session check
after its awaited getUserMedia resolves.  When stopListening runs while the
recovery is in flight, the completing recovery installs the new live media
stream, analyser and keep-alive gain anyway — capture resources are live
after stop, the microphone is left capturing — even though the next tick
halts on the nulled callback.  This theorem evaluates the model at that
failing input. -/
theorem stop_during_recovery_leaks_stream :
    (restartComplete (stopListeningFn (restartBegin runningSup)) true 99).stream
        = StreamState.live ∧
    (restartComplete (stopListeningFn (restartBegin runningSup)) true 99).analyserSet = true ∧
    (restartComplete (stopListeningFn (restartBegin runningSup)) true 99).keepAliveSet = true ∧
    (restartComplete (stopListeningFn (restartBegin runningSup)) true 99).callbackSet = false ∧
    tickCheck (restartComplete (stopListeningFn (restartBegin runningSup)) true 99)
      100 0 5000 = TickDecision.halt := by decide

/-- Claim C9: on a no-signal frame the stabilization step clears the
candidate tracking and emits nothing, leaving the last emitted MIDI unchanged
unless the independent re-arm timer expired on that same frame (in which case
it is cleared). -/
theorem noSignal_clears_candidate (cfg : Config) (st : DetState) (fr : Frame)
    (hp : fr.pitch = none) :
    (tickStep cfg st fr).1.candidateMidi = none ∧
    (tickStep cfg st fr).1.candidateStartTs = none ∧
    (tickStep cfg st fr).2 = none ∧
    (rearmFires cfg st fr = false →
      (tickStep cfg st fr).1.lastEmittedMidi = st.lastEmittedMidi) ∧
    (rearmFires cfg st fr = true → (tickStep cfg st fr).1.lastEmittedMidi = none) := by
  obtain ⟨g0, g1, g2, g3, _⟩ := tickStep_noSignal_fields cfg st fr hp
  refine ⟨g1, g2, g0, ?_, ?_⟩
  · intro hf
    rw [g3, (rearmStep_preserves cfg st fr hf).1]
  · intro hf
    rw [g3, rearmStep_of_fires cfg st fr hf]

/-- Witness for C9: a no-signal frame with the re-arm timer idle clears the
candidate and keeps the last emitted MIDI 60. -/
theorem noSignal_clears_candidate_witness :
    (tickStep defaultConfig ⟨some 60, some 60, some 0, none⟩ ⟨10, 0, none⟩).1.candidateMidi
        = none ∧
    (tickStep defaultConfig ⟨some 60, some 60, some 0, none⟩
        ⟨10, 0, none⟩).1.lastEmittedMidi = some 60 := by
  obtain ⟨h1, _, _, h4, _⟩ := noSignal_clears_candidate defaultConfig
    ⟨some 60, some 60, some 0, none⟩ ⟨10, 0, none⟩ rfl
  exact ⟨h1, (h4 (by decide)).trans rfl⟩

/-- Claim C10: every frequency getPitch actually returns lies in 50..2000 Hz,
and freqToMidi maps that band into MIDI 31..95; hence every midiToNote call
reached from the live per-frame pipeline gets a nonnegative MIDI whose
remainder mod 12 lies in 0..11, and the semitonesMap lookup is in bounds —
the negative-remainder hazard is unreachable in the live path. -/
theorem live_pipeline_midi_safe (buffer : List ℚ) (sampleRate : ℚ) (f : ℚ)
    (h : getPitch buffer sampleRate = some f) :
    31 ≤ freqToMidi (f : ℝ) ∧ freqToMidi (f : ℝ) ≤ 95 ∧
    0 ≤ Int.tmod (freqToMidi (f : ℝ)) 12 ∧ Int.tmod (freqToMidi (f : ℝ)) 12 < 12 ∧
    (midiToNote (freqToMidi (f : ℝ))).isSome := by
  obtain ⟨h50, h2000⟩ := getPitch_freq_bounds buffer sampleRate f h
  obtain ⟨hlo, hhi⟩ := freqToMidi_bounds (f : ℝ) (by exact_mod_cast h50)
    (by exact_mod_cast h2000)
  have h0 : (0 : ℤ) ≤ freqToMidi (f : ℝ) := by omega
  exact ⟨hlo, hhi, Int.tmod_nonneg 12 h0, Int.tmod_lt_of_pos _ (by norm_num),
    midiToNote_isSome_of_nonneg _ h0⟩

/-- Witness for C10 at the alternating buffer: getPitch yields 500 Hz and the
quantization conclusions hold at 500. -/
theorem live_pipeline_midi_safe_witness :
    31 ≤ freqToMidi ((500 : ℚ) : ℝ) ∧ freqToMidi ((500 : ℚ) : ℝ) ≤ 95 ∧
    0 ≤ Int.tmod (freqToMidi ((500 : ℚ) : ℝ)) 12 ∧
    Int.tmod (freqToMidi ((500 : ℚ) : ℝ)) 12 < 12 ∧
    (midiToNote (freqToMidi ((500 : ℚ) : ℝ))).isSome :=
  live_pipeline_midi_safe [(1:ℚ)/2, -1/2, 1/2, -1/2] 1000 500 (by decide)

end Oud
